import Mathlib

/-!
Shallow embedding of the tusd storage/concurrency core:

* `limitedstore/limitedstore.go` — the bounded-capacity decorator
  (`LimitedStore`, `NewUpload`, `Terminate`, `ensureSpace`, and the
  capability-probing pass-through methods);
* `memorylocker/memorylocker.go` — the in-memory exclusive-lock decorator
  (`MemoryLocker`, `LockUpload`, `UnlockUpload`);
* `handler.go` — capability-driven route attachment in `NewHandler`.

Go maps over `string` keys are modelled as association lists with
Go-map semantics (lookup of a missing key yields the zero value `0`,
`delete` of a missing key is a no-op, assignment replaces or appends).
Go's `int64` sizes are modelled as `Int` (no arithmetic in this code
comes near the 64-bit boundary, so wrap-around is not modelled).
Errors (`error` values) are modelled by `Option Err` (`none` = `nil`),
and functions returning `(T, error)` by `Except Err T` where exactly one
of the two is meaningful.  The wrapped backend (`tusd.TerminaterDataStore`)
is external to the repository; its `Terminate` is modelled as an oracle
`String → Option Err` and its `NewUpload` outcome as an `Except Err String`,
both passed explicitly where the Go code would call the embedded interface.
The `sync.Mutex` serialises each exported method; the embedding models the
(sequential) behaviour inside the critical section by explicit state passing.
-/

/-- Error values visible to this core: `tusd.ErrNotImplemented`,
`tusd.ErrFileLocked`, and opaque backend-defined errors. -/
inductive Err where
  | notImplemented
  | fileLocked
  | backend (code : Nat)
deriving DecidableEq, Repr

/-- Go-map read `m[id]` for a `map[string]int64`: the zero value `0`
is returned when the key is absent. -/
def mapGet (m : List (String × Int)) (k : String) : Int :=
  match m.find? (fun p => p.1 == k) with
  | some p => p.2
  | none => 0

/-- Go-map `delete(m, k)`: removes the entry for `k`; a no-op when absent. -/
def mapDelete (m : List (String × Int)) (k : String) : List (String × Int) :=
  m.filter (fun p => p.1 != k)

/-- Go-map assignment `m[k] = v`: replaces the entry if present, else appends. -/
def mapInsert (m : List (String × Int)) (k : String) (v : Int) : List (String × Int) :=
  if m.any (fun p => p.1 == k) then
    m.map (fun p => if p.1 == k then (k, v) else p)
  else
    m ++ [(k, v)]

/-- The keys of the modelled Go map. -/
def mapKeys (m : List (String × Int)) : List String :=
  m.map Prod.fst

/-- Sum of the values of the modelled Go map. -/
def sumSizes (m : List (String × Int)) : Int :=
  (m.map Prod.snd).sum

/-- The bookkeeping state of `limitedstore.LimitedStore`: the configured
capacity `StoreSize`, the `uploads` map from id to declared size, and the
running byte total `usedSize`.  The embedded backend and the mutex are not
part of the state; backend calls are passed in as oracles. -/
structure LimitedStore where
  StoreSize : Int
  uploads : List (String × Int)
  usedSize : Int
deriving DecidableEq, Repr

/-- `limitedstore.New`: fresh store with the given capacity and empty bookkeeping. -/
def LimitedStore.new (storeSize : Int) : LimitedStore :=
  { StoreSize := storeSize, uploads := [], usedSize := 0 }

/-- The private `(*LimitedStore).terminate`: calls the backend's `Terminate`
(the oracle `bt`); on backend failure returns the error with the state
unchanged; on success removes the id from `uploads` and decrements `usedSize`
by the recorded size (`0` when the id is untracked). -/
def LimitedStore.terminate (bt : String → Option Err) (s : LimitedStore) (id : String) :
    LimitedStore × Option Err :=
  match bt id with
  | some e => (s, some e)
  | none =>
    ({ s with
        uploads := mapDelete s.uploads id,
        usedSize := s.usedSize - mapGet s.uploads id }, none)

/-- The exported `(*LimitedStore).Terminate`: takes the mutex and delegates
to `terminate`. -/
def LimitedStore.Terminate (bt : String → Option Err) (s : LimitedStore) (id : String) :
    LimitedStore × Option Err :=
  LimitedStore.terminate bt s id

/-- The success path of one termination (`terminate` when the backend call
succeeds); used to describe intermediate states of the eviction loop. -/
def termOk (s : LimitedStore) (id : String) : LimitedStore :=
  { s with
      uploads := mapDelete s.uploads id,
      usedSize := s.usedSize - mapGet s.uploads id }

/-- The space condition `(store.usedSize + size) <= store.StoreSize`
checked by `ensureSpace` before and inside the eviction loop. -/
def hasSpace (s : LimitedStore) (size : Int) : Prop :=
  s.usedSize + size ≤ s.StoreSize

instance (s : LimitedStore) (size : Int) : Decidable (hasSpace s size) := by
  unfold hasSpace; infer_instance

/-- `sort.Sort(sort.Reverse(sortedUploads))` in `ensureSpace`: the tracked
pairs sorted by declared size, biggest first.  Go's sort leaves the order of
ties unspecified; the model fixes one sorted permutation (insertion sort
under the reversed comparison), which realises one admissible outcome. -/
def sortedUploads (m : List (String × Int)) : List (String × Int) :=
  List.insertionSort (fun a b => b.2 ≤ a.2) m

/-- The `for _, k := range sortedUploads` loop of `ensureSpace`: terminate
each upload in turn, aborting on a backend failure, and return as soon as
the space condition holds. -/
def ensureSpaceLoop (bt : String → Option Err) (s : LimitedStore) (size : Int) :
    List (String × Int) → LimitedStore × Option Err
  | [] => (s, none)
  | k :: rest =>
    match LimitedStore.terminate bt s k.1 with
    | (s', some e) => (s', some e)
    | (s', none) =>
      if hasSpace s' size then (s', none)
      else ensureSpaceLoop bt s' size rest

/-- `(*LimitedStore).ensureSpace`: immediately succeeds when the new upload
fits; otherwise runs the eviction loop over the size-sorted tracked uploads. -/
def LimitedStore.ensureSpace (bt : String → Option Err) (s : LimitedStore) (size : Int) :
    LimitedStore × Option Err :=
  if hasSpace s size then (s, none)
  else ensureSpaceLoop bt s size (sortedUploads s.uploads)

/-- `(*LimitedStore).NewUpload`: runs `ensureSpace` for the declared size,
aborting on its error; then delegates creation to the backend (outcome `bn`),
propagating its error; on success records the new id and size and increments
`usedSize`. -/
def LimitedStore.NewUpload (bt : String → Option Err) (bn : Except Err String)
    (s : LimitedStore) (size : Int) : LimitedStore × Except Err String :=
  match LimitedStore.ensureSpace bt s size with
  | (s', some e) => (s', .error e)
  | (s', none) =>
    match bn with
    | .error e => (s', .error e)
    | .ok id =>
      ({ s' with
          usedSize := s'.usedSize + size,
          uploads := mapInsert s'.uploads id size }, .ok id)

/-- The backend-`Terminate` oracle in which every call succeeds. -/
def okBT : String → Option Err := fun _ => none

/-- Folding the success path of `terminate` over a list of ids: the
bookkeeping state after that sequence of successful terminations. -/
def runTerm (s : LimitedStore) (ids : List String) : LimitedStore :=
  ids.foldl termOk s

/-- The ids terminated by the eviction loop when every backend call
succeeds: walk the sorted list, stopping right after the first termination
that makes the space condition hold. -/
def evictTraceOk (s : LimitedStore) (size : Int) :
    List (String × Int) → List String
  | [] => []
  | k :: rest =>
    let s' := termOk s k.1
    if hasSpace s' size then [k.1]
    else k.1 :: evictTraceOk s' size rest

/-- The optional capabilities of the wrapped data store, each present or
absent, mirroring the dynamic type assertions against `tusd.GetReaderDataStore`,
`tusd.LockerDataStore`, `tusd.FinisherDataStore` and `tusd.ConcaterDataStore`.
A `Nat` stands for the opaque `io.Reader` handle `GetReader` returns. -/
structure Backend where
  getReader : Option (String → Except Err Nat)
  lockUpload : Option (String → Option Err)
  unlockUpload : Option (String → Option Err)
  finishUpload : Option (String → Option Err)
  concatUploads : Option (String → List String → Option Err)

/-- `(*LimitedStore).GetReader`: forwarded when the backend implements
`tusd.GetReaderDataStore`, else `tusd.ErrNotImplemented`. -/
def LimitedStore.GetReader (b : Backend) (id : String) : Except Err Nat :=
  match b.getReader with
  | some f => f id
  | none => .error Err.notImplemented

/-- `(*LimitedStore).LockUpload`: forwarded when the backend implements
`tusd.LockerDataStore`, else simply returns `nil`. -/
def LimitedStore.LockUpload (b : Backend) (id : String) : Option Err :=
  match b.lockUpload with
  | some f => f id
  | none => none

/-- `(*LimitedStore).UnlockUpload`: forwarded when the backend implements
`tusd.LockerDataStore`, else simply returns `nil`. -/
def LimitedStore.UnlockUpload (b : Backend) (id : String) : Option Err :=
  match b.unlockUpload with
  | some f => f id
  | none => none

/-- `(*LimitedStore).FinishUpload`: forwarded when the backend implements
`tusd.FinisherDataStore`, else simply returns `nil`. -/
def LimitedStore.FinishUpload (b : Backend) (id : String) : Option Err :=
  match b.finishUpload with
  | some f => f id
  | none => none

/-- `(*LimitedStore).ConcatUploads`: forwarded when the backend implements
`tusd.ConcaterDataStore`, else `tusd.ErrNotImplemented`. -/
def LimitedStore.ConcatUploads (b : Backend) (dest : String) (src : List String) :
    Option Err :=
  match b.concatUploads with
  | some f => f dest src
  | none => .some Err.notImplemented

/-- The lock table of `memorylocker.MemoryLocker`: the Go `map[string]bool`
used as a set of currently held upload ids (only presence of a key matters). -/
structure MemoryLocker where
  locks : List String
deriving DecidableEq, Repr

/-- `memorylocker.NewMemoryLocker`: an empty lock table. -/
def MemoryLocker.new : MemoryLocker := { locks := [] }

/-- `(*MemoryLocker).LockUpload`: fails with `tusd.ErrFileLocked` when the id
is already in the table (table unchanged), else records the id and succeeds;
never blocks. -/
def MemoryLocker.LockUpload (m : MemoryLocker) (id : String) :
    MemoryLocker × Option Err :=
  if m.locks.contains id then (m, some Err.fileLocked)
  else ({ locks := m.locks ++ [id] }, none)

/-- `(*MemoryLocker).UnlockUpload`: deletes the id from the table (a no-op
when absent) and always succeeds. -/
def MemoryLocker.UnlockUpload (m : MemoryLocker) (id : String) :
    MemoryLocker × Option Err :=
  ({ locks := m.locks.filter (fun x => x != id) }, none)

/-- The capabilities of `Config.DataStore` probed by `NewHandler`:
whether it satisfies `tusd.TerminaterDataStore` and `tusd.GetReaderDataStore`. -/
structure DataStoreCaps where
  terminater : Bool
  getReader : Bool
deriving DecidableEq, Repr

/-- HTTP methods routed by `NewHandler`. -/
inductive Method where
  | post | head | patch | delete | get
deriving DecidableEq, Repr

/-- `tusd.NewHandler`: after a successful `NewUnroutedHandler(config)`
(modelled by the `unrouted` outcome, whose error is propagated), attach the
POST, HEAD and PATCH routes unconditionally, the DELETE route only when the
data store satisfies the Terminater capability, and the GET route only when
it satisfies the GetReader capability.  The route list is computed once at
construction from the capability probe. -/
def NewHandler (unrouted : Except Err Unit) (c : DataStoreCaps) :
    Except Err (List (Method × String)) :=
  match unrouted with
  | .error e => .error e
  | .ok _ =>
    .ok ([(Method.post, ""), (Method.head, ":id"), (Method.patch, ":id")]
      ++ (if c.terminater then [(Method.delete, ":id")] else [])
      ++ (if c.getReader then [(Method.get, ":id")] else []))

/-- One client-visible operation against the bounded store, with the backend
outcomes fixed to success: a creation with the backend-assigned id and the
declared size, or a client-driven termination. -/
inductive Op where
  | create (id : String) (size : Int)
  | remove (id : String)

/-- Applying one operation when every backend call succeeds: `create`
runs `NewUpload` with an all-success terminate oracle and a successful
backend creation returning `id`; `remove` runs the exported `Terminate`. -/
def applyOp (s : LimitedStore) : Op → LimitedStore
  | .create id size => (LimitedStore.NewUpload okBT (.ok id) s size).1
  | .remove id => (LimitedStore.Terminate okBT s id).1

/-- Runs of operation sequences in which every backend call succeeds and the
backend assigns fresh ids: at each `create` the new id is not currently
tracked. -/
inductive GoodRun : LimitedStore → List Op → LimitedStore → Prop where
  | nil (s : LimitedStore) : GoodRun s [] s
  | create (s : LimitedStore) (id : String) (size : Int) (ops : List Op)
      (s'' : LimitedStore) (hfresh : id ∉ mapKeys s.uploads)
      (h : GoodRun (applyOp s (Op.create id size)) ops s'') :
      GoodRun s (Op.create id size :: ops) s''
  | remove (s : LimitedStore) (id : String) (ops : List Op) (s'' : LimitedStore)
      (h : GoodRun (applyOp s (Op.remove id)) ops s'') :
      GoodRun s (Op.remove id :: ops) s''

/-- The capacity-accounting invariant: `usedSize` equals the sum of the
declared sizes recorded in the tracked-uploads map. -/
def Accounted (s : LimitedStore) : Prop :=
  s.usedSize = sumSizes s.uploads

/-- Well-formedness of the modelled Go map: no duplicate keys. -/
def WFStore (s : LimitedStore) : Prop :=
  (mapKeys s.uploads).Nodup

instance (s : LimitedStore) : Decidable (Accounted s) := by
  unfold Accounted; infer_instance

instance (s : LimitedStore) : Decidable (WFStore s) := by
  unfold WFStore; exact List.nodupDecidable _

instance : IsTotal (String × Int) (fun a b => b.2 ≤ a.2) :=
  ⟨fun a b => le_total b.2 a.2⟩

instance : IsTrans (String × Int) (fun a b => b.2 ≤ a.2) :=
  ⟨fun _ _ _ h1 h2 => le_trans h2 h1⟩

/-- The spec's worked example for the eviction order: uploads of sizes
10, 50, 30 and 5 bytes, capacity 40, incoming request of 35 bytes. -/
def specEx : LimitedStore :=
  { StoreSize := 40,
    uploads := [("a", 10), ("b", 50), ("c", 30), ("d", 5)],
    usedSize := 95 }

/-- A backend whose `Terminate` fails on id "a" with error code 7 and
succeeds elsewhere. -/
def btFailA : String → Option Err :=
  fun id => if id = "a" then some (Err.backend 7) else none

/-- A store tracking a single 5-byte upload "a" with capacity 4. -/
def sFailA : LimitedStore :=
  { StoreSize := 4, uploads := [("a", 5)], usedSize := 5 }

/-- A backend implementing none of the optional capabilities. -/
def bareBackend : Backend :=
  { getReader := none, lockUpload := none, unlockUpload := none,
    finishUpload := none, concatUploads := none }

/-- An absent key reads as the zero value. -/
theorem mapGet_of_not_mem {m : List (String × Int)} {k : String}
    (h : k ∉ mapKeys m) : mapGet m k = 0 := by
  have hfind : m.find? (fun p => p.1 == k) = none := by
    apply List.find?_eq_none.mpr
    intro p hp
    simp only [beq_iff_eq]
    intro hk
    exact h (List.mem_map.mpr ⟨p, hp, hk⟩)
  simp [mapGet, hfind]

/-- Deleting an absent key is a no-op. -/
theorem mapDelete_of_not_mem {m : List (String × Int)} {k : String}
    (h : k ∉ mapKeys m) : mapDelete m k = m := by
  apply List.filter_eq_self.mpr
  intro p hp
  simp only [bne_iff_ne, ne_eq]
  intro hk
  exact h (List.mem_map.mpr ⟨p, hp, hk⟩)

/-- Inserting a fresh key appends the pair. -/
theorem mapInsert_of_not_mem {m : List (String × Int)} {k : String} (v : Int)
    (h : k ∉ mapKeys m) : mapInsert m k v = m ++ [(k, v)] := by
  have hany : m.any (fun p => p.1 == k) = false := by
    simp only [List.any_eq_false, beq_iff_eq]
    intro p hp hk
    exact h (List.mem_map.mpr ⟨p, hp, hk⟩)
  simp [mapInsert, hany]

/-- The deleted map is a sublist, so its keys are a sublist of the keys. -/
theorem mapKeys_mapDelete_sublist (m : List (String × Int)) (k : String) :
    List.Sublist (mapKeys (mapDelete m k)) (mapKeys m) :=
  List.Sublist.map Prod.fst (List.filter_sublist m)

/-- Under distinct keys, deleting a key subtracts exactly its recorded size. -/
theorem sumSizes_mapDelete {m : List (String × Int)} (k : String)
    (h : (mapKeys m).Nodup) :
    sumSizes (mapDelete m k) = sumSizes m - mapGet m k := by
  induction m with
  | nil => simp [sumSizes, mapDelete, mapGet]
  | cons p m ih =>
    have hnd : (mapKeys m).Nodup := (List.nodup_cons.mp h).2
    have hhd : p.1 ∉ mapKeys m := (List.nodup_cons.mp h).1
    by_cases hk : p.1 = k
    · subst hk
      have h1 : mapDelete (p :: m) p.1 = mapDelete m p.1 := by
        simp [mapDelete]
      have h2 : mapDelete m p.1 = m := mapDelete_of_not_mem hhd
      have h3 : mapGet (p :: m) p.1 = p.2 := by
        simp [mapGet, List.find?_cons_of_pos]
      rw [h1, h2, h3]
      simp [sumSizes]
    · have h1 : mapDelete (p :: m) k = p :: mapDelete m k := by
        simp [mapDelete, List.filter_cons, hk]
      have h3 : mapGet (p :: m) k = mapGet m k := by
        simp [mapGet, List.find?_cons_of_neg, hk]
      rw [h1, h3]
      simp only [sumSizes, List.map_cons, List.sum_cons] at *
      rw [ih hnd]
      ring

/-- `terminate` when the backend call fails: error returned, state untouched. -/
theorem terminate_some {bt : String → Option Err} {s : LimitedStore} {id : String}
    {e : Err} (h : bt id = some e) :
    LimitedStore.terminate bt s id = (s, some e) := by
  simp [LimitedStore.terminate, h]

/-- `terminate` when the backend call succeeds: the success path `termOk`. -/
theorem terminate_none {bt : String → Option Err} {s : LimitedStore} {id : String}
    (h : bt id = none) :
    LimitedStore.terminate bt s id = (termOk s id, none) := by
  simp [LimitedStore.terminate, termOk, h]

/-- `terminate` under the all-success backend oracle. -/
theorem terminate_okBT (s : LimitedStore) (id : String) :
    LimitedStore.terminate okBT s id = (termOk s id, none) :=
  terminate_none rfl

/-- `termOk` never touches the configured capacity. -/
theorem termOk_StoreSize (s : LimitedStore) (id : String) :
    (termOk s id).StoreSize = s.StoreSize := rfl

/-- One successful termination preserves the accounting invariant and
well-formedness, and can only shrink the tracked key set. -/
theorem termOk_preserves (s : LimitedStore) (id : String)
    (hacc : Accounted s) (hwf : WFStore s) :
    Accounted (termOk s id) ∧ WFStore (termOk s id) ∧
      mapKeys (termOk s id).uploads ⊆ mapKeys s.uploads := by
  refine ⟨?_, ?_, ?_⟩
  · show (termOk s id).usedSize = sumSizes (termOk s id).uploads
    show s.usedSize - mapGet s.uploads id = sumSizes (mapDelete s.uploads id)
    rw [sumSizes_mapDelete id hwf, hacc]
  · exact List.Nodup.sublist (mapKeys_mapDelete_sublist s.uploads id) hwf
  · exact List.Sublist.subset (mapKeys_mapDelete_sublist s.uploads id)

/-- Iterated successful terminations preserve accounting, well-formedness
and the capacity, and shrink the tracked key set. -/
theorem runTerm_preserves (ids : List String) :
    ∀ s : LimitedStore, Accounted s → WFStore s →
    Accounted (runTerm s ids) ∧ WFStore (runTerm s ids) ∧
      mapKeys (runTerm s ids).uploads ⊆ mapKeys s.uploads ∧
      (runTerm s ids).StoreSize = s.StoreSize := by
  induction ids with
  | nil => intro s hacc hwf; exact ⟨hacc, hwf, fun _ h => h, rfl⟩
  | cons id ids ih =>
    intro s hacc hwf
    obtain ⟨h1, h2, h3⟩ := termOk_preserves s id hacc hwf
    obtain ⟨h4, h5, h6, h7⟩ := ih (termOk s id) h1 h2
    refine ⟨?_, ?_, ?_, ?_⟩
    · simpa [runTerm] using h4
    · simpa [runTerm] using h5
    · intro a ha
      exact h3 (h6 (by simpa [runTerm] using ha))
    · simpa [runTerm, termOk_StoreSize] using h7

/-- With an all-success backend, the eviction loop terminates exactly the
ids of `evictTraceOk` and reports no error. -/
theorem ensureSpaceLoop_okBT (size : Int) :
    ∀ (l : List (String × Int)) (s : LimitedStore),
    ensureSpaceLoop okBT s size l = (runTerm s (evictTraceOk s size l), none) := by
  intro l
  induction l with
  | nil => intro s; simp [ensureSpaceLoop, evictTraceOk, runTerm]
  | cons k rest ih =>
    intro s
    rw [ensureSpaceLoop, terminate_okBT]
    by_cases hc : hasSpace (termOk s k.1) size
    · simp [evictTraceOk, hc, runTerm]
    · simp only [evictTraceOk, hc, if_neg, if_false]
      rw [ih (termOk s k.1)]
      simp [runTerm]

/-- With an all-success backend, `ensureSpace` never reports an error, and
its resulting state is the original one when the upload fits, else the state
after the traced evictions. -/
theorem ensureSpace_okBT (s : LimitedStore) (size : Int) :
    LimitedStore.ensureSpace okBT s size
      = (if hasSpace s size then s
         else runTerm s (evictTraceOk s size (sortedUploads s.uploads)), none) := by
  by_cases h : hasSpace s size
  · simp [LimitedStore.ensureSpace, h]
  · simp only [LimitedStore.ensureSpace, h, if_neg, if_false]
    exact ensureSpaceLoop_okBT size (sortedUploads s.uploads) s

/-- The keys surviving `sortedUploads` are the original keys (it is a
permutation). -/
theorem sortedUploads_perm (m : List (String × Int)) :
    List.Perm (sortedUploads m) m :=
  List.perm_insertionSort _ m

/-- One `create` step with successful backend calls and a fresh id preserves
accounting and well-formedness. -/
theorem applyOp_create_preserves {s : LimitedStore} {id : String} {size : Int}
    (hfresh : id ∉ mapKeys s.uploads) (hacc : Accounted s) (hwf : WFStore s) :
    Accounted (applyOp s (Op.create id size)) ∧ WFStore (applyOp s (Op.create id size)) := by
  have hmid : Accounted (LimitedStore.ensureSpace okBT s size).1 ∧
      WFStore (LimitedStore.ensureSpace okBT s size).1 ∧
      mapKeys (LimitedStore.ensureSpace okBT s size).1.uploads ⊆ mapKeys s.uploads := by
    rw [ensureSpace_okBT]
    by_cases h : hasSpace s size
    · simp only [h, if_true]
      exact ⟨hacc, hwf, fun _ hx => hx⟩
    · simp only [h, if_false]
      obtain ⟨h1, h2, h3, _⟩ :=
        runTerm_preserves (evictTraceOk s size (sortedUploads s.uploads)) s hacc hwf
      exact ⟨h1, h2, h3⟩
  obtain ⟨hacc', hwf', hsub⟩ := hmid
  have hfresh' : id ∉ mapKeys (LimitedStore.ensureSpace okBT s size).1.uploads :=
    fun hmem => hfresh (hsub hmem)
  have happ : applyOp s (Op.create id size)
      = { (LimitedStore.ensureSpace okBT s size).1 with
          usedSize := (LimitedStore.ensureSpace okBT s size).1.usedSize + size,
          uploads := mapInsert (LimitedStore.ensureSpace okBT s size).1.uploads id size } := by
    simp only [applyOp, LimitedStore.NewUpload]
    rw [show LimitedStore.ensureSpace okBT s size
        = ((LimitedStore.ensureSpace okBT s size).1, none) from by
      rw [ensureSpace_okBT]]
  rw [happ]
  constructor
  · show _ + size = sumSizes (mapInsert _ id size)
    rw [mapInsert_of_not_mem size hfresh']
    have hacc'' : (LimitedStore.ensureSpace okBT s size).1.usedSize
        = sumSizes (LimitedStore.ensureSpace okBT s size).1.uploads := hacc'
    rw [hacc'']
    simp [sumSizes]
  · show (mapKeys (mapInsert _ id size)).Nodup
    rw [mapInsert_of_not_mem size hfresh']
    simp only [mapKeys, List.map_append, List.map_cons, List.map_nil]
    rw [List.nodup_append]
    exact ⟨hwf', List.nodup_singleton id, by
      intro a ha hb
      simp only [List.mem_singleton] at hb
      subst hb
      exact hfresh' ha⟩

/-- One `remove` step with a successful backend call preserves accounting
and well-formedness. -/
theorem applyOp_remove_preserves {s : LimitedStore} {id : String}
    (hacc : Accounted s) (hwf : WFStore s) :
    Accounted (applyOp s (Op.remove id)) ∧ WFStore (applyOp s (Op.remove id)) := by
  have h : applyOp s (Op.remove id) = termOk s id := by
    simp [applyOp, LimitedStore.Terminate, terminate_okBT]
  rw [h]
  obtain ⟨h1, h2, _⟩ := termOk_preserves s id hacc hwf
  exact ⟨h1, h2⟩

/-- C1: For every sequence of `NewUpload` and `Terminate` operations in which
the backend calls succeed and the backend returns fresh unique ids, after each
operation `usedSize` equals the sum of the declared sizes recorded in the
tracked-uploads map (and the map keeps distinct keys). -/
theorem capacity_accounting {s : LimitedStore} {ops : List Op} {s' : LimitedStore}
    (hrun : GoodRun s ops s') :
    Accounted s → WFStore s → Accounted s' ∧ WFStore s' := by
  induction hrun with
  | nil s => exact fun hacc hwf => ⟨hacc, hwf⟩
  | create s id size ops s'' hfresh h ih =>
    intro hacc hwf
    obtain ⟨h1, h2⟩ := applyOp_create_preserves hfresh hacc hwf
    exact ih h1 h2
  | remove s id ops s'' h ih =>
    intro hacc hwf
    obtain ⟨h1, h2⟩ := applyOp_remove_preserves hacc hwf
    exact ih h1 h2

/-- C1 witness: a concrete run — create "a" (4 bytes), create "b" (5 bytes),
terminate "a" — starting from a fresh store of capacity 10. -/
theorem capacity_accounting_witness :
    Accounted (applyOp (applyOp (applyOp (LimitedStore.new 10)
        (Op.create "a" 4)) (Op.create "b" 5)) (Op.remove "a")) ∧
    WFStore (applyOp (applyOp (applyOp (LimitedStore.new 10)
        (Op.create "a" 4)) (Op.create "b" 5)) (Op.remove "a")) := by
  have hrun : GoodRun (LimitedStore.new 10)
      [Op.create "a" 4, Op.create "b" 5, Op.remove "a"]
      (applyOp (applyOp (applyOp (LimitedStore.new 10) (Op.create "a" 4))
        (Op.create "b" 5)) (Op.remove "a")) := by
    apply GoodRun.create _ _ _ _ _ (by decide)
    apply GoodRun.create _ _ _ _ _ (by decide)
    apply GoodRun.remove
    exact GoodRun.nil _
  exact capacity_accounting hrun (by decide) (by decide)

/-- The sorted pair list is ordered by declared size, biggest first. -/
theorem sortedUploads_sorted (m : List (String × Int)) :
    List.Sorted (fun a b => b.2 ≤ a.2) (sortedUploads m) :=
  List.sorted_insertionSort _ m

/-- The eviction trace is the ids of an initial segment of the walked list. -/
theorem evictTraceOk_take (size : Int) :
    ∀ (l : List (String × Int)) (s : LimitedStore),
    ∃ n, n ≤ l.length ∧ evictTraceOk s size l = (l.take n).map Prod.fst := by
  intro l
  induction l with
  | nil => intro s; exact ⟨0, by simp, by simp [evictTraceOk]⟩
  | cons k rest ih =>
    intro s
    by_cases h : hasSpace (termOk s k.1) size
    · exact ⟨1, by simp, by simp [evictTraceOk, h]⟩
    · obtain ⟨n, hn, htr⟩ := ih (termOk s k.1)
      refine ⟨n + 1, by simp [Nat.succ_le_succ hn], ?_⟩
      simp [evictTraceOk, h, htr]

/-- The loop never keeps evicting once the space condition holds: at each
intermediate recheck short of the last, the condition was still violated. -/
theorem evictTraceOk_recheck (size : Int) :
    ∀ (l : List (String × Int)) (s : LimitedStore) (j : Nat),
    j + 1 < (evictTraceOk s size l).length →
    ¬ hasSpace (runTerm s ((evictTraceOk s size l).take (j + 1))) size := by
  intro l
  induction l with
  | nil => intro s j hj; simp [evictTraceOk] at hj
  | cons k rest ih =>
    intro s j hj
    by_cases h : hasSpace (termOk s k.1) size
    · simp [evictTraceOk, h] at hj
    · cases j with
      | zero =>
        simp [evictTraceOk, h, runTerm]
      | succ j' =>
        have hj' : j' + 1 < (evictTraceOk (termOk s k.1) size rest).length := by
          simpa [evictTraceOk, h] using hj
        have := ih (termOk s k.1) j' hj'
        simpa [evictTraceOk, h, runTerm] using this

/-- If the loop stopped before exhausting the list, it stopped because the
space condition held after its last termination. -/
theorem evictTraceOk_stop (size : Int) :
    ∀ (l : List (String × Int)) (s : LimitedStore),
    (evictTraceOk s size l).length < l.length →
    hasSpace (runTerm s (evictTraceOk s size l)) size := by
  intro l
  induction l with
  | nil => intro s h; simp [evictTraceOk] at h
  | cons k rest ih =>
    intro s h
    by_cases hc : hasSpace (termOk s k.1) size
    · simp [evictTraceOk, hc, runTerm]
    · have h' : (evictTraceOk (termOk s k.1) size rest).length < rest.length := by
        simpa [evictTraceOk, hc] using h
      have := ih (termOk s k.1) h'
      simpa [evictTraceOk, hc, runTerm] using this

/-- C2: When `NewUpload` is called with a size violating the space condition,
the eviction phase walks the tracked uploads in non-increasing order of
declared size (a sorted permutation of the tracked map, ties arbitrary),
terminating each in turn; it rechecks the space condition after each
successful termination and stops with success the moment it holds. -/
theorem eviction_order_policy (s : LimitedStore) (size : Int)
    (hfull : ¬ hasSpace s size) :
    List.Sorted (fun a b => b.2 ≤ a.2) (sortedUploads s.uploads) ∧
    List.Perm (sortedUploads s.uploads) s.uploads ∧
    LimitedStore.ensureSpace okBT s size
      = (runTerm s (evictTraceOk s size (sortedUploads s.uploads)), none) ∧
    (∃ n, n ≤ (sortedUploads s.uploads).length ∧
      evictTraceOk s size (sortedUploads s.uploads)
        = ((sortedUploads s.uploads).take n).map Prod.fst) ∧
    (∀ j, j + 1 < (evictTraceOk s size (sortedUploads s.uploads)).length →
      ¬ hasSpace
          (runTerm s ((evictTraceOk s size (sortedUploads s.uploads)).take (j + 1)))
          size) ∧
    ((evictTraceOk s size (sortedUploads s.uploads)).length
        < (sortedUploads s.uploads).length →
      hasSpace (runTerm s (evictTraceOk s size (sortedUploads s.uploads))) size) := by
  refine ⟨sortedUploads_sorted s.uploads, sortedUploads_perm s.uploads, ?_, ?_, ?_, ?_⟩
  · rw [ensureSpace_okBT]
    simp [hfull]
  · exact evictTraceOk_take size (sortedUploads s.uploads) s
  · exact fun j hj => evictTraceOk_recheck size (sortedUploads s.uploads) s j hj
  · exact fun h => evictTraceOk_stop size (sortedUploads s.uploads) s h

/-- C2 witness: on the spec's worked example the theorem applies, and the
resulting eviction terminates "b" (50), then "c" (30), then "a" (10), at
which point 5 + 35 ≤ 40 holds and the loop stops, leaving "d" tracked. -/
theorem eviction_order_policy_witness :
    LimitedStore.ensureSpace okBT specEx 35
      = (runTerm specEx (evictTraceOk specEx 35 (sortedUploads specEx.uploads)), none) ∧
    evictTraceOk specEx 35 (sortedUploads specEx.uploads) = ["b", "c", "a"] ∧
    LimitedStore.ensureSpace okBT specEx 35
      = ({ StoreSize := 40, uploads := [("d", 5)], usedSize := 5 }, none) := by
  refine ⟨(eviction_order_policy specEx 35 (by decide)).2.2.1, by decide, by decide⟩

/-- C3: With an all-success backend the eviction phase never reports an
error even when it exhausts every tracked upload without freeing enough
space, and `NewUpload` proceeds to delegate; in particular with no tracked
uploads and a declared size exceeding the capacity, creation succeeds
when the backend call succeeds. -/
theorem best_effort_creation :
    (∀ (s : LimitedStore) (size : Int),
      (LimitedStore.ensureSpace okBT s size).2 = none) ∧
    (∀ (s : LimitedStore) (size : Int) (id : String),
      s.uploads = [] → s.StoreSize < s.usedSize + size →
      LimitedStore.NewUpload okBT (.ok id) s size
        = ({ s with usedSize := s.usedSize + size, uploads := [(id, size)] },
            .ok id)) := by
  constructor
  · intro s size
    rw [ensureSpace_okBT]
  · intro s size id hempty hover
    have hfull : ¬ hasSpace s size := by
      simp only [hasSpace, not_le]
      exact hover
    have htr : evictTraceOk s size (sortedUploads s.uploads) = [] := by
      rw [hempty]
      rfl
    have hes : LimitedStore.ensureSpace okBT s size = (s, none) := by
      rw [ensureSpace_okBT, htr]
      simp [hfull, runTerm]
    simp only [LimitedStore.NewUpload, hes]
    rw [hempty]
    rfl

/-- C3 witness: capacity 5, no tracked uploads, incoming size 100 —
creation still succeeds when the backend call does. -/
theorem best_effort_creation_witness :
    (LimitedStore.ensureSpace okBT (LimitedStore.new 5) 100).2 = none ∧
    LimitedStore.NewUpload okBT (.ok "x") (LimitedStore.new 5) 100
      = ({ StoreSize := 5, uploads := [("x", 100)], usedSize := 100 }, .ok "x") := by
  constructor
  · exact best_effort_creation.1 (LimitedStore.new 5) 100
  · exact best_effort_creation.2 (LimitedStore.new 5) 100 "x" rfl (by decide)

/-- An eviction-loop run that ends in a backend error terminated exactly an
initial block of successfully handled entries, then hit the failing one;
the returned state carries the effects of the successful prefix only. -/
theorem ensureSpaceLoop_error (bt : String → Option Err) (size : Int) :
    ∀ (l : List (String × Int)) (s s' : LimitedStore) (e : Err),
    ensureSpaceLoop bt s size l = (s', some e) →
    ∃ l1 k l2, l = l1 ++ k :: l2 ∧ (∀ p ∈ l1, bt p.1 = none) ∧ bt k.1 = some e ∧
      s' = runTerm s (l1.map Prod.fst) := by
  intro l
  induction l with
  | nil =>
    intro s s' e h
    simp [ensureSpaceLoop] at h
  | cons k rest ih =>
    intro s s' e h
    rw [ensureSpaceLoop] at h
    cases hbt : bt k.1 with
    | some e' =>
      rw [terminate_some hbt] at h
      obtain ⟨h1, h2⟩ := Prod.mk.injEq .. ▸ h
      injection h
      rename_i h1 h2
      injection h2 with h2
      exact ⟨[], k, rest, rfl, by simp, by rw [hbt, h2], by simp [runTerm, h1]⟩
    | none =>
      rw [terminate_none hbt] at h
      by_cases hc : hasSpace (termOk s k.1) size
      · simp [hc] at h
      · simp only [hc, if_false, if_neg] at h
        obtain ⟨l1, k', l2, hl, hok, hk', hs'⟩ := ih (termOk s k.1) s' e h
        refine ⟨k :: l1, k', l2, by simp [hl], ?_, hk', ?_⟩
        · intro p hp
          rcases List.mem_cons.mp hp with hp | hp
          · rw [hp]; exact hbt
          · exact hok p hp
        · simp [runTerm] at hs' ⊢
          exact hs'

/-- C4: If a backend `Terminate` call fails during the eviction phase,
`NewUpload` returns that error without delegating creation (the result is
the same for every backend-creation outcome `bn`), and the bookkeeping
keeps exactly the effects of the terminations that succeeded before the
failure. -/
theorem eviction_failure_aborts (bt : String → Option Err)
    (s s' : LimitedStore) (size : Int) (e : Err)
    (h : LimitedStore.ensureSpace bt s size = (s', some e)) :
    ¬ hasSpace s size ∧
    (∀ bn, LimitedStore.NewUpload bt bn s size = (s', .error e)) ∧
    ∃ l1 k l2, sortedUploads s.uploads = l1 ++ k :: l2 ∧
      (∀ p ∈ l1, bt p.1 = none) ∧ bt k.1 = some e ∧
      s' = runTerm s (l1.map Prod.fst) := by
  have hfull : ¬ hasSpace s size := by
    intro hc
    rw [LimitedStore.ensureSpace, if_pos hc] at h
    simp at h
  refine ⟨hfull, ?_, ?_⟩
  · intro bn
    rw [LimitedStore.NewUpload, h]
  · rw [LimitedStore.ensureSpace, if_neg hfull] at h
    exact ensureSpaceLoop_error bt size (sortedUploads s.uploads) s s' e h

/-- C4 witness: creating a 3-byte upload on `sFailA` triggers eviction,
the backend termination of "a" fails, and `NewUpload` returns the error
with the bookkeeping untouched, never delegating creation. -/
theorem eviction_failure_aborts_witness :
    LimitedStore.NewUpload btFailA (.ok "zz") sFailA 3
      = (sFailA, .error (Err.backend 7)) := by
  exact (eviction_failure_aborts btFailA sFailA sFailA 3 (Err.backend 7)
    (by decide)).2.1 (.ok "zz")

/-- C5: `MemoryLocker.LockUpload` on an id already in the lock table fails
with `tusd.ErrFileLocked` and leaves the table unchanged; on an absent id it
succeeds and records the id; hence locking the same id twice in a row
without an intervening unlock fails the second attempt.  Acquisition is a
pure check-and-set with no waiting. -/
theorem lock_fail_fast (m : MemoryLocker) (id : String) :
    (id ∈ m.locks → MemoryLocker.LockUpload m id = (m, some Err.fileLocked)) ∧
    (id ∉ m.locks →
      MemoryLocker.LockUpload m id = ({ locks := m.locks ++ [id] }, none)) ∧
    (id ∉ m.locks →
      (MemoryLocker.LockUpload (MemoryLocker.LockUpload m id).1 id).2
        = some Err.fileLocked) := by
  refine ⟨?_, ?_, ?_⟩
  · intro h
    simp [MemoryLocker.LockUpload, h]
  · intro h
    simp [MemoryLocker.LockUpload, h]
  · intro h
    simp [MemoryLocker.LockUpload, h]

/-- C5 witness: locking "u" on an empty table succeeds; relocking fails. -/
theorem lock_fail_fast_witness :
    MemoryLocker.LockUpload MemoryLocker.new "u" = ({ locks := ["u"] }, none) ∧
    (MemoryLocker.LockUpload
      (MemoryLocker.LockUpload MemoryLocker.new "u").1 "u").2
        = some Err.fileLocked := by
  refine ⟨(lock_fail_fast MemoryLocker.new "u").2.1 (by decide),
    (lock_fail_fast MemoryLocker.new "u").2.2 (by decide)⟩

/-- C6: Terminating an id the decorator never tracked, with a successful
backend call, succeeds and leaves the bookkeeping exactly as it was. -/
theorem terminate_untracked (bt : String → Option Err) (s : LimitedStore)
    (id : String) (hbt : bt id = none) (hid : id ∉ mapKeys s.uploads) :
    LimitedStore.Terminate bt s id = (s, none) := by
  rw [LimitedStore.Terminate, terminate_none hbt]
  rw [show termOk s id = s from ?_]
  unfold termOk
  rw [mapDelete_of_not_mem hid, mapGet_of_not_mem hid]
  cases s
  simp

/-- C6 witness: terminating the untracked id "z" on a store tracking only
"a" leaves `usedSize` and the map unchanged. -/
theorem terminate_untracked_witness :
    LimitedStore.Terminate okBT
        { StoreSize := 10, uploads := [("a", 4)], usedSize := 4 } "z"
      = ({ StoreSize := 10, uploads := [("a", 4)], usedSize := 4 }, none) :=
  terminate_untracked okBT
    { StoreSize := 10, uploads := [("a", 4)], usedSize := 4 } "z" rfl (by decide)

/-- C7: `MemoryLocker.UnlockUpload` never fails: it deletes the id from the
table and succeeds for every id, a no-op when the id was never locked. -/
theorem unlock_never_fails (m : MemoryLocker) (id : String) :
    (MemoryLocker.UnlockUpload m id).2 = none ∧
    (MemoryLocker.UnlockUpload m id).1.locks
      = m.locks.filter (fun x => x != id) ∧
    (id ∉ m.locks → MemoryLocker.UnlockUpload m id = (m, none)) := by
  refine ⟨rfl, rfl, ?_⟩
  intro h
  have hf : m.locks.filter (fun x => x != id) = m.locks := by
    apply List.filter_eq_self.mpr
    intro a ha
    simp only [bne_iff_ne, ne_eq]
    intro hak
    exact h (hak ▸ ha)
  rw [MemoryLocker.UnlockUpload, hf]

/-- C7 witness: unlocking the never-locked id "v" on the table holding "u"
is a successful no-op; unlocking "u" removes it and succeeds. -/
theorem unlock_never_fails_witness :
    MemoryLocker.UnlockUpload { locks := ["u"] } "v" = ({ locks := ["u"] }, none) ∧
    (MemoryLocker.UnlockUpload { locks := ["u"] } "u").2 = none := by
  refine ⟨(unlock_never_fails { locks := ["u"] } "v").2.2 (by decide),
    (unlock_never_fails { locks := ["u"] } "u").1⟩

/-- C8: Each pass-through method of the bounded store probes the backend for
the matching capability: `GetReader` and `ConcatUploads` return
`tusd.ErrNotImplemented` when it is absent, `LockUpload`, `UnlockUpload` and
`FinishUpload` silently succeed; when the capability is present the call is
forwarded to the backend unchanged. -/
theorem capability_gating (b : Backend) (id dest : String) (src : List String) :
    (b.getReader = none →
      LimitedStore.GetReader b id = .error Err.notImplemented) ∧
    (∀ f, b.getReader = some f → LimitedStore.GetReader b id = f id) ∧
    (b.lockUpload = none → LimitedStore.LockUpload b id = none) ∧
    (∀ f, b.lockUpload = some f → LimitedStore.LockUpload b id = f id) ∧
    (b.unlockUpload = none → LimitedStore.UnlockUpload b id = none) ∧
    (∀ f, b.unlockUpload = some f → LimitedStore.UnlockUpload b id = f id) ∧
    (b.finishUpload = none → LimitedStore.FinishUpload b id = none) ∧
    (∀ f, b.finishUpload = some f → LimitedStore.FinishUpload b id = f id) ∧
    (b.concatUploads = none →
      LimitedStore.ConcatUploads b dest src = some Err.notImplemented) ∧
    (∀ f, b.concatUploads = some f →
      LimitedStore.ConcatUploads b dest src = f dest src) := by
  refine ⟨?_, ?_, ?_, ?_, ?_, ?_, ?_, ?_, ?_, ?_⟩ <;>
    first
      | (intro h; simp [LimitedStore.GetReader, LimitedStore.LockUpload,
          LimitedStore.UnlockUpload, LimitedStore.FinishUpload,
          LimitedStore.ConcatUploads, h])
      | (intro f h; simp [LimitedStore.GetReader, LimitedStore.LockUpload,
          LimitedStore.UnlockUpload, LimitedStore.FinishUpload,
          LimitedStore.ConcatUploads, h])

/-- C8 witness: on a backend with no optional capabilities, reads and
concatenation fail with the not-implemented error while lock, unlock and
finish silently succeed. -/
theorem capability_gating_witness :
    LimitedStore.GetReader bareBackend "x" = .error Err.notImplemented ∧
    LimitedStore.LockUpload bareBackend "x" = none ∧
    LimitedStore.UnlockUpload bareBackend "x" = none ∧
    LimitedStore.FinishUpload bareBackend "x" = none ∧
    LimitedStore.ConcatUploads bareBackend "d" ["x"] = some Err.notImplemented := by
  have h := capability_gating bareBackend "x" "d" ["x"]
  exact ⟨h.1 rfl, h.2.2.1 rfl, h.2.2.2.2.1 rfl, h.2.2.2.2.2.2.1 rfl,
    h.2.2.2.2.2.2.2.2.1 rfl⟩

/-- C9: On a successful construction, `NewHandler` attaches DELETE exactly
when the data store satisfies the Terminater capability and GET exactly when
it satisfies the GetReader capability, while POST, HEAD and PATCH are always
attached; the route list is a pure function of the construction-time
capability probe, never re-evaluated. -/
theorem endpoints_by_capability (c : DataStoreCaps)
    (routes : List (Method × String))
    (h : NewHandler (.ok ()) c = .ok routes) :
    ((Method.delete, ":id") ∈ routes ↔ c.terminater = true) ∧
    ((Method.get, ":id") ∈ routes ↔ c.getReader = true) ∧
    (Method.post, "") ∈ routes ∧
    (Method.head, ":id") ∈ routes ∧
    (Method.patch, ":id") ∈ routes := by
  have hr : routes
      = [(Method.post, ""), (Method.head, ":id"), (Method.patch, ":id")]
        ++ (if c.terminater then [(Method.delete, ":id")] else [])
        ++ (if c.getReader then [(Method.get, ":id")] else []) := by
    rw [NewHandler] at h
    injection h with h
    exact h.symm
  subst hr
  rcases c with ⟨t, g⟩
  cases t <;> cases g <;> simp

/-- C9 witness: a Terminater-only data store yields DELETE but not GET,
alongside the always-present POST, HEAD and PATCH. -/
theorem endpoints_by_capability_witness :
    ((Method.delete, ":id")
        ∈ [(Method.post, ""), (Method.head, ":id"), (Method.patch, ":id"),
           (Method.delete, ":id")] ↔ (true : Bool) = true) ∧
    ((Method.get, ":id")
        ∈ [(Method.post, ""), (Method.head, ":id"), (Method.patch, ":id"),
           (Method.delete, ":id")] ↔ (false : Bool) = true) := by
  have h := endpoints_by_capability
    { terminater := true, getReader := false }
    [(Method.post, ""), (Method.head, ":id"), (Method.patch, ":id"),
     (Method.delete, ":id")] (by rfl)
  exact ⟨h.1, h.2.1⟩

/-- C10: For an id not currently in the lock table, `LockUpload` followed by
`UnlockUpload` both succeed and return the table to exactly its prior state. -/
theorem lock_unlock_roundtrip (m : MemoryLocker) (id : String)
    (h : id ∉ m.locks) :
    (MemoryLocker.LockUpload m id).2 = none ∧
    (MemoryLocker.UnlockUpload (MemoryLocker.LockUpload m id).1 id).2 = none ∧
    (MemoryLocker.UnlockUpload (MemoryLocker.LockUpload m id).1 id).1 = m := by
  have hl : MemoryLocker.LockUpload m id = ({ locks := m.locks ++ [id] }, none) := by
    simp [MemoryLocker.LockUpload, h]
  have hf : m.locks.filter (fun x => x != id) = m.locks := by
    apply List.filter_eq_self.mpr
    intro a ha
    simp only [bne_iff_ne, ne_eq]
    intro hak
    exact h (hak ▸ ha)
  refine ⟨by rw [hl], rfl, ?_⟩
  rw [hl]
  show ({ locks := (m.locks ++ [id]).filter (fun x => x != id) } : MemoryLocker) = m
  rw [List.filter_append, hf]
  simp

/-- C10 witness: locking then unlocking "w" on the table holding only "u"
returns the table to exactly `{ locks := ["u"] }`. -/
theorem lock_unlock_roundtrip_witness :
    (MemoryLocker.LockUpload { locks := ["u"] } "w").2 = none ∧
    (MemoryLocker.UnlockUpload
      (MemoryLocker.LockUpload { locks := ["u"] } "w").1 "w").2 = none ∧
    (MemoryLocker.UnlockUpload
      (MemoryLocker.LockUpload { locks := ["u"] } "w").1 "w").1
        = { locks := ["u"] } :=
  lock_unlock_roundtrip { locks := ["u"] } "w" (by decide)
